import Mathlib

/-!
# Verification of the atsamd peripheral-identity and register-accessor layer

Shallow embedding of:
* `src/pac/atsame54n/src/etm/itctrl.rs` — the ITCTRL register reader/writer
  (`INTEGRATION_W::bit`, `set_bit`, `clear_bit`, `R::integration`);
* `src/pac/atsame53j/src/gmac/ofr.rs` — the OFR register reader (`R::ofrx`);
* `src/hal/src/sercom/v2.rs` — the `Sercom` trait and the `sercom!` macro
  expansion per chip variant (`NUM`, `DMA_RX_TRIGGER`/`DMA_TX_TRIGGER`,
  `enable_apb_clock`);
* the Pad Resolver described in the specification (its code is not part of
  the sampled sources, so it is modelled from the spec).

Machine integers are `Nat` with explicit 32-bit masks where the Rust code
masks; registers are 32-bit (`u32`) values.
-/

namespace Atsamd

/-- All-ones 32-bit mask, `u32::MAX = 0xffffffff`. -/
def mask32 : Nat := 2 ^ 32 - 1

/-! ## `itctrl.rs`: ITCTRL register accessors -/

/-- `INTEGRATION_W::bit` from `itctrl.rs`:
`self.w.bits = (self.w.bits & !0x01) | (value as u32 & 0x01)`.
`!0x01` is the 32-bit complement of `0x01`, i.e. `mask32 ^^^ 0x01`. -/
def integrationWBit (value : Bool) (bits : Nat) : Nat :=
  (bits &&& (mask32 ^^^ 0x01)) ||| (value.toNat &&& 0x01)

/-- `INTEGRATION_W::set_bit` from `itctrl.rs`: `self.bit(true)`. -/
def integrationWSetBit (bits : Nat) : Nat := integrationWBit true bits

/-- `INTEGRATION_W::clear_bit` from `itctrl.rs`: `self.bit(false)`. -/
def integrationWClearBit (bits : Nat) : Nat := integrationWBit false bits

/-- `R::integration` from `itctrl.rs`: `(self.bits & 0x01) != 0`. -/
def rIntegration (bits : Nat) : Bool := (bits &&& 0x01) != 0

/-! ## `ofr.rs`: OFR register reader -/

/-- `R::ofrx` from `ofr.rs`: `OFRX_R::new((self.bits & 0x03ff) as u16)`.
The masked value is below `2^10`, so the `as u16` cast is lossless and the
field value is the masked `Nat` itself. -/
def ofrx (bits : Nat) : Nat := bits &&& 0x03ff

/-! ### Claims C9 and C10 -/

/-- C9: for every raw value of the GMAC OFR register, `ofrx` returns exactly
the low ten bits of the register (`bits % 1024`), hence is always strictly
less than 1024. -/
theorem ofrx_low_ten_bits (bits : Nat) :
    ofrx bits = bits % 1024 ∧ ofrx bits < 1024 := by
  have h : ofrx bits = bits % 2 ^ 10 := by
    have := Nat.and_pow_two_sub_one_eq_mod bits 10
    simpa [ofrx] using this
  constructor
  · simpa using h
  · rw [h]
    exact Nat.lt_of_lt_of_le (Nat.mod_lt _ (by norm_num)) (by norm_num)

/-- C10: `INTEGRATION_W::bit(v)` on a 32-bit writer value equals
`(prior & !0x01) | v`; bit 0 of the result is `v`, every other bit is
unchanged, reading the integration field of the result returns `v`, and
`set_bit`/`clear_bit` are the `true`/`false` instances. -/
theorem integration_w_bit_spec (v : Bool) (bits : Nat) (h : bits < 2 ^ 32) :
    integrationWBit v bits = (bits &&& 0xfffffffe) ||| v.toNat ∧
    (integrationWBit v bits).testBit 0 = v ∧
    (∀ i : Nat, i ≠ 0 → (integrationWBit v bits).testBit i = bits.testBit i) ∧
    rIntegration (integrationWBit v bits) = v ∧
    integrationWSetBit bits = integrationWBit true bits ∧
    integrationWClearBit bits = integrationWBit false bits := by
  have hm : mask32 ^^^ 0x01 = 0xfffffffe := by decide
  have hv : v.toNat &&& 0x01 = v.toNat := by cases v <;> decide
  refine ⟨?_, ?_, ?_, ?_, rfl, rfl⟩
  · rw [integrationWBit, hm, hv]
  · rw [integrationWBit, hm, hv]
    cases v <;> simp [Nat.testBit_or, Nat.testBit_and]
  · intro i hi
    rw [integrationWBit, hv]
    have hone : Nat.testBit 1 i = false := by
      simpa using Nat.testBit_two_pow_of_ne (n := 0) (m := i) (Ne.symm hi)
    have hvi : (v.toNat).testBit i = false := by
      cases v
      · simp
      · exact hone
    rcases Nat.lt_or_ge i 32 with hlt | hge
    · have hmxi : Nat.testBit (mask32 ^^^ 0x01) i = true := by
        rw [Nat.testBit_xor, mask32, Nat.testBit_two_pow_sub_one, hone]
        simp [hlt]
      simp [Nat.testBit_or, Nat.testBit_and, hmxi, hvi]
    · have hb : bits.testBit i = false := Nat.testBit_lt_two_pow (by
        exact Nat.lt_of_lt_of_le h (Nat.pow_le_pow_right (by norm_num) hge))
      simp [Nat.testBit_or, Nat.testBit_and, hb, hvi]
  · have hbit : (integrationWBit v bits).testBit 0 = v := by
      rw [integrationWBit, hm, hv]
      cases v <;> simp [Nat.testBit_or, Nat.testBit_and]
    rw [rIntegration]
    have h01 : ∀ x : Nat, (x &&& 0x01 != 0) = x.testBit 0 := by
      intro x
      have : x &&& 0x01 = x % 2 := by
        have h1 := Nat.and_pow_two_sub_one_eq_mod x 1
        simp only [pow_one] at h1
        exact h1
      rw [this, Nat.testBit_zero]
      rcases Nat.mod_two_eq_zero_or_one x with h2 | h2 <;> simp [h2]
    rw [h01, hbit]

/-- Closed-form witness for C10 at `v = true`, `bits = 5`. -/
theorem integration_w_bit_spec_witness :
    (5 : Nat) < 2 ^ 32 ∧
    (integrationWBit true 5 = ((5 : Nat) &&& 0xfffffffe) ||| (true : Bool).toNat ∧
     (integrationWBit true 5).testBit 0 = true ∧
     (∀ i : Nat, i ≠ 0 → (integrationWBit true 5).testBit i = (5 : Nat).testBit i) ∧
     rIntegration (integrationWBit true 5) = true ∧
     integrationWSetBit 5 = integrationWBit true 5 ∧
     integrationWClearBit 5 = integrationWBit false 5) :=
  ⟨by norm_num, integration_w_bit_spec true 5 (by norm_num)⟩

/-! ## `sercom/v2.rs`: chip variants and the `sercom!` macro expansion -/

/-- Cargo feature flags gating the `sercom!` invocations at the bottom of
`sercom/v2.rs`. -/
structure Features where
  samd11 : Bool
  samd21 : Bool
  minSamd21g : Bool
  minSamd51g : Bool
  minSamd51n : Bool
deriving DecidableEq

/-- Supported chip variants and the feature sets they activate: `samd21e`
activates only `samd21`; the larger `samd21g`/`samd21j` packages add
`min-samd21g`; `samd51g`/`samd51j` activate `min-samd51g`; `samd51n`/
`samd51p` add `min-samd51n`. -/
inductive Variant where
  | samd11
  | samd21e
  | samd21g
  | samd51g
  | samd51n
deriving DecidableEq

/-- The feature set a chip variant compiles with. -/
def Variant.features : Variant → Features
  | .samd11 => ⟨true, false, false, false, false⟩
  | .samd21e => ⟨false, true, false, false, false⟩
  | .samd21g => ⟨false, true, true, false, false⟩
  | .samd51g => ⟨false, false, false, true, false⟩
  | .samd51n => ⟨false, false, false, true, true⟩

/-- The `Sercom::NUM` constants compiled in for a feature set: each guarded
`sercom!(mask: (start, end))` invocation generates instances `SercomN` with
`NUM = N` for `N` in `start..=end` (lines 112–126 of `sercom/v2.rs`). -/
def sercomNums (f : Features) : List Nat :=
  (if f.samd11 || f.samd21 then [0, 1] else []) ++
  (if f.samd21 then [2, 3] else []) ++
  (if f.minSamd21g then [4, 5] else []) ++
  (if f.minSamd51g then [0, 1] else []) ++
  (if f.minSamd51g then [2, 3] else []) ++
  (if f.minSamd51g then [4, 5] else []) ++
  (if f.minSamd51n then [6, 7] else [])

/-- Modelled from the spec: `crate::common::dmac::TriggerSource` (not among
the sampled sources) is an enumeration with one distinct variant
`SERCOMn_RX` / `SERCOMn_TX` per SERCOM instance. -/
inductive TriggerSource where
  | sercomRx : Nat → TriggerSource
  | sercomTx : Nat → TriggerSource
deriving DecidableEq

/-- `Sercom::DMA_RX_TRIGGER = TriggerSource::SERCOMn_RX` from `sercom!`. -/
def dmaRxTrigger (n : Nat) : TriggerSource := .sercomRx n

/-- `Sercom::DMA_TX_TRIGGER = TriggerSource::SERCOMn_TX` from `sercom!`. -/
def dmaTxTrigger (n : Nat) : TriggerSource := .sercomTx n

/-! ### Claims C2 and C3 -/

/-- C2: on every supported chip variant the `NUM` constants of the
compiled-in SERCOM instances are pairwise distinct. -/
theorem sercom_nums_distinct (v : Variant) : (sercomNums v.features).Nodup := by
  cases v <;> decide

/-- C3: on every supported chip variant, for any two distinct compiled-in
SERCOM instances the four DMA trigger constants are mutually distinct, and
within one instance the receive and transmit triggers differ. -/
theorem sercom_dma_triggers_distinct (v : Variant) :
    (∀ m ∈ sercomNums v.features, ∀ n ∈ sercomNums v.features, m ≠ n →
      dmaRxTrigger m ≠ dmaRxTrigger n ∧ dmaRxTrigger m ≠ dmaTxTrigger n ∧
      dmaTxTrigger m ≠ dmaRxTrigger n ∧ dmaTxTrigger m ≠ dmaTxTrigger n) ∧
    (∀ n ∈ sercomNums v.features, dmaRxTrigger n ≠ dmaTxTrigger n) := by
  cases v <;> exact ⟨by decide, by decide⟩

/-! ## `sercom/v2.rs`: `enable_apb_clock` -/

/-- svd2rust `set_bit` on a one-bit field at offset `o` inside a `modify`:
the register value `bits` becomes `(bits & !(1 << o)) | (1 << o)`. -/
def setBitTrue (o bits : Nat) : Nat :=
  (bits &&& (mask32 ^^^ (1 <<< o))) ||| (1 <<< o)

/-- The APB mask registers of `pac::MCLK` (SAMx5x families). -/
structure Mclk where
  apbamask : Nat
  apbbmask : Nat
  apbcmask : Nat
  apbdmask : Nat
deriving DecidableEq

/-- The APB mask register of `pac::PM` used by `sercom!` on SAMD11/21. -/
structure Pm where
  apbcmask : Nat
deriving DecidableEq

/-- Modelled from the spec: the bit position of the `sercomN_` field inside
its APB mask register (the mask-register accessor files are not among the
sampled sources). Positions follow the vendor layout: APBAMASK.SERCOM0/1 at
bits 12/13, APBBMASK.SERCOM2/3 at bits 9/10, APBDMASK.SERCOM4..7 at bits
0..3. -/
def sercomBitSamx5x (n : Nat) : Nat :=
  if n ≤ 1 then n + 12 else if n ≤ 3 then n + 7 else n - 4

/-- Modelled from the spec: the bit position of `sercomN_` inside
PM.APBCMASK on SAMD11/21 (bits 2..7 in the vendor layout). -/
def sercomBitSamd (n : Nat) : Nat := n + 2

/-- `Sercom::enable_apb_clock` on SAMx5x:
`ctrl.$apbmask.modify(|_, w| w.sercomN_().set_bit())`, where the `sercom!`
invocations route Sercom0/1 to `apbamask`, Sercom2/3 to `apbbmask`, and
Sercom4..7 to `apbdmask`. -/
def enableApbClockSamx5x (n : Nat) (s : Mclk) : Mclk :=
  if n ≤ 1 then { s with apbamask := setBitTrue (sercomBitSamx5x n) s.apbamask }
  else if n ≤ 3 then { s with apbbmask := setBitTrue (sercomBitSamx5x n) s.apbbmask }
  else { s with apbdmask := setBitTrue (sercomBitSamx5x n) s.apbdmask }

/-- `Sercom::enable_apb_clock` on SAMD11/21: every `sercom!` invocation
routes to `ctrl.apbcmask`. -/
def enableApbClockSamd (n : Nat) (s : Pm) : Pm :=
  { apbcmask := setBitTrue (sercomBitSamd n) s.apbcmask }

/-! ### Register-level lemmas about `setBitTrue` -/

theorem setBitTrue_testBit_self (o x : Nat) : (setBitTrue o x).testBit o = true := by
  rw [setBitTrue, Nat.one_shiftLeft, Nat.testBit_or, Nat.testBit_two_pow_self,
    Bool.or_true]

theorem setBitTrue_testBit_of_ne (o x i : Nat) (hi : i < 32) (hne : i ≠ o) :
    (setBitTrue o x).testBit i = x.testBit i := by
  rw [setBitTrue, Nat.one_shiftLeft, Nat.testBit_or, Nat.testBit_and, Nat.testBit_xor,
    mask32, Nat.testBit_two_pow_sub_one, Nat.testBit_two_pow]
  simp [hi, Ne.symm hne]

theorem setBitTrue_idem (o x : Nat) :
    setBitTrue o (setBitTrue o x) = setBitTrue o x := by
  apply Nat.eq_of_testBit_eq
  intro i
  by_cases h : i = o
  · subst h
    rw [setBitTrue_testBit_self, setBitTrue_testBit_self]
  · simp only [setBitTrue, Nat.one_shiftLeft]
    simp only [Nat.testBit_or, Nat.testBit_and]
    cases hx : Nat.testBit (x &&& (mask32 ^^^ 2 ^ o) ||| 2 ^ o) i <;>
      cases hm : Nat.testBit (mask32 ^^^ 2 ^ o) i <;>
      cases hp : Nat.testBit (2 ^ o) i <;>
      simp_all [Nat.testBit_or, Nat.testBit_and]

/-! ### Claims C4, C5 and C6 -/

/-- C4: `enable_apb_clock` leaves the instance's own `sercomN_` bit set in
the APB mask register of the clock-domain group the instance belongs to
(SAMx5x: Sercom0/1 in `apbamask`, Sercom2/3 in `apbbmask`, Sercom4..7 in
`apbdmask`; SAMD11/21: `apbcmask`), and does not touch the other mask
registers. -/
theorem enable_apb_clock_sets_named_bit (n : Nat) (s : Mclk) (q : Pm) :
    ((n ≤ 1 →
        (enableApbClockSamx5x n s).apbamask.testBit (sercomBitSamx5x n) = true ∧
        (enableApbClockSamx5x n s).apbbmask = s.apbbmask ∧
        (enableApbClockSamx5x n s).apbcmask = s.apbcmask ∧
        (enableApbClockSamx5x n s).apbdmask = s.apbdmask) ∧
     (2 ≤ n → n ≤ 3 →
        (enableApbClockSamx5x n s).apbbmask.testBit (sercomBitSamx5x n) = true ∧
        (enableApbClockSamx5x n s).apbamask = s.apbamask ∧
        (enableApbClockSamx5x n s).apbcmask = s.apbcmask ∧
        (enableApbClockSamx5x n s).apbdmask = s.apbdmask) ∧
     (4 ≤ n →
        (enableApbClockSamx5x n s).apbdmask.testBit (sercomBitSamx5x n) = true ∧
        (enableApbClockSamx5x n s).apbamask = s.apbamask ∧
        (enableApbClockSamx5x n s).apbbmask = s.apbbmask ∧
        (enableApbClockSamx5x n s).apbcmask = s.apbcmask)) ∧
    (enableApbClockSamd n q).apbcmask.testBit (sercomBitSamd n) = true := by
  refine ⟨⟨?_, ?_, ?_⟩, ?_⟩
  · intro h1
    simp [enableApbClockSamx5x, h1, setBitTrue_testBit_self]
  · intro h2 h3
    have h1 : ¬ n ≤ 1 := by omega
    simp [enableApbClockSamx5x, h1, h3, setBitTrue_testBit_self]
  · intro h4
    have h1 : ¬ n ≤ 1 := by omega
    have h3 : ¬ n ≤ 3 := by omega
    simp [enableApbClockSamx5x, h1, h3, setBitTrue_testBit_self]
  · simp [enableApbClockSamd, setBitTrue_testBit_self]

/-- C5: `enable_apb_clock` is idempotent: on both register-family models,
calling it twice leaves the clock-domain registers exactly as one call
does, for every starting register state. -/
theorem enable_apb_clock_idem (n : Nat) (s : Mclk) (q : Pm) :
    enableApbClockSamx5x n (enableApbClockSamx5x n s) = enableApbClockSamx5x n s ∧
    enableApbClockSamd n (enableApbClockSamd n q) = enableApbClockSamd n q := by
  constructor
  · by_cases h1 : n ≤ 1
    · simp [enableApbClockSamx5x, h1, setBitTrue_idem]
    · by_cases h3 : n ≤ 3 <;> simp [enableApbClockSamx5x, h1, h3, setBitTrue_idem]
  · simp [enableApbClockSamd, setBitTrue_idem]

/-- C6: `enable_apb_clock` changes only the instance's own enable bit:
every other bit of every APB mask register (all registers are 32-bit) has
the same value after the call as before. -/
theorem enable_apb_clock_frame (n i : Nat) (s : Mclk) (q : Pm) (hi : i < 32) :
    (i ≠ sercomBitSamx5x n →
      (enableApbClockSamx5x n s).apbamask.testBit i = s.apbamask.testBit i ∧
      (enableApbClockSamx5x n s).apbbmask.testBit i = s.apbbmask.testBit i ∧
      (enableApbClockSamx5x n s).apbcmask.testBit i = s.apbcmask.testBit i ∧
      (enableApbClockSamx5x n s).apbdmask.testBit i = s.apbdmask.testBit i) ∧
    (i ≠ sercomBitSamd n →
      (enableApbClockSamd n q).apbcmask.testBit i = q.apbcmask.testBit i) := by
  constructor
  · intro hne
    by_cases h1 : n ≤ 1
    · simp [enableApbClockSamx5x, h1, setBitTrue_testBit_of_ne _ _ _ hi hne]
    · by_cases h3 : n ≤ 3 <;>
        simp [enableApbClockSamx5x, h1, h3, setBitTrue_testBit_of_ne _ _ _ hi hne]
  · intro hne
    simp [enableApbClockSamd, setBitTrue_testBit_of_ne _ _ _ hi hne]

/-- Closed-form witness for C6 at `n = 0`, `i = 5`. -/
theorem enable_apb_clock_frame_witness :
    (5 : Nat) < 32 ∧
    ((5 ≠ sercomBitSamx5x 0 →
      (enableApbClockSamx5x 0 ⟨1, 2, 3, 4⟩).apbamask.testBit 5 =
        (1 : Nat).testBit 5 ∧
      (enableApbClockSamx5x 0 ⟨1, 2, 3, 4⟩).apbbmask.testBit 5 =
        (2 : Nat).testBit 5 ∧
      (enableApbClockSamx5x 0 ⟨1, 2, 3, 4⟩).apbcmask.testBit 5 =
        (3 : Nat).testBit 5 ∧
      (enableApbClockSamx5x 0 ⟨1, 2, 3, 4⟩).apbdmask.testBit 5 =
        (4 : Nat).testBit 5) ∧
     (5 ≠ sercomBitSamd 0 →
      (enableApbClockSamd 0 ⟨7⟩).apbcmask.testBit 5 = (7 : Nat).testBit 5)) :=
  ⟨by decide, enable_apb_clock_frame 0 5 ⟨1, 2, 3, 4⟩ ⟨7⟩ (by decide)⟩

/-! ## Pad Resolver

Modelled from the spec: the Pad Resolver, IoSet Catalog and Pad Binding live
in the `pad` module of `sercom/v2.rs`, which is not among the sampled
sources. The model follows spec sections 3, 4.3, 4.4, 5 and 7: a candidate
role-to-pin assignment is treated as an IoSet of role/pin/alternate-function
triples and accepted iff it exactly matches a catalog entry; pins must exist
on the package and must not be claimed by a live binding; rejections are a
discriminated outcome and change no state. -/

/-- Functional roles of the synchronous serial family (spec section 3). -/
inductive Role where
  | clock
  | dataIn
  | dataOut
  | select
deriving DecidableEq

/-- A physical package pin: port plus number (spec section 3). -/
structure Pin where
  port : Nat
  num : Nat
deriving DecidableEq

/-- One role/pin/alternate-function triple of a candidate or cataloged
IoSet. -/
structure Triple where
  role : Role
  pin : Pin
  alt : Nat
deriving DecidableEq

/-- An IoSet: a grouping of role/pin/alternate-function triples. -/
abbrev IoSet := List Triple

/-- The IoSet Catalog together with the pins available on the active
package (spec sections 4.3 and 4.4). -/
structure Catalog where
  entries : Nat → List IoSet
  available : List Pin

/-- A validated Pad Binding (spec section 3). -/
structure PadBinding where
  periph : Nat
  triples : List Triple
deriving DecidableEq

/-- The claim table: the live Pad Bindings (spec section 9, pin ownership
as an explicit claim table). -/
structure ResolverState where
  bindings : List PadBinding
deriving DecidableEq

/-- The discriminated rejection taxonomy of spec section 7. -/
inductive Rejection where
  | invalidRoleCoverage
  | unsanctioned
  | pinUnavailable
  | pinClaimed
deriving DecidableEq

/-- The state with no live bindings. -/
def initState : ResolverState := ⟨[]⟩

/-- The roles the synchronous serial protocol requires, one pad each. -/
def requiredRoles : List Role := [.clock, .dataIn, .dataOut, .select]

/-- Spec section 4.4: the candidate covers exactly the required roles —
each required role is assigned exactly once. -/
def roleCoverageOk (asg : List Triple) : Bool :=
  requiredRoles.all fun r =>
    decide ((asg.filter fun t => decide (t.role = r)).length = 1)

/-- The pins named by an assignment. -/
def pinsOf (asg : List Triple) : List Pin := asg.map Triple.pin

/-- The pins claimed by the live bindings. -/
def claimedPins (st : ResolverState) : List Pin :=
  st.bindings.flatMap fun b => pinsOf b.triples

/-- Equality of two triple lists viewed as sets. -/
def sameTripleSet (a b : List Triple) : Bool :=
  (a.all fun t => decide (t ∈ b)) && (b.all fun t => decide (t ∈ a))

/-- `resolve(peripheral, role→pin assignments)` from spec section 4.4:
reject on bad role coverage, on a pin absent from the package, on a pin
already claimed, or on a candidate that is not an exact set match of a
catalog entry; otherwise produce the binding and claim its pins. A
rejection returns the state unchanged. -/
def resolve (cat : Catalog) (p : Nat) (asg : List Triple) (st : ResolverState) :
    Except Rejection PadBinding × ResolverState :=
  if roleCoverageOk asg then
    if (pinsOf asg).all (fun x => decide (x ∈ cat.available)) then
      if (pinsOf asg).any (fun x => decide (x ∈ claimedPins st)) then
        (Except.error Rejection.pinClaimed, st)
      else if (cat.entries p).any (fun e => sameTripleSet asg e) then
        (Except.ok ⟨p, asg⟩, ⟨(⟨p, asg⟩ : PadBinding) :: st.bindings⟩)
      else (Except.error Rejection.unsanctioned, st)
    else (Except.error Rejection.pinUnavailable, st)
  else (Except.error Rejection.invalidRoleCoverage, st)

/-- Dropping a Pad Binding returns its pins to the unclaimed state. -/
def release (b : PadBinding) (st : ResolverState) : ResolverState :=
  ⟨st.bindings.erase b⟩

/-- A cataloged IoSet is well formed (spec sections 3 and 4.3): it covers
the required roles exactly, no pin appears twice, and every pin exists on
the package. -/
def ioSetWf (avail : List Pin) (e : IoSet) : Prop :=
  roleCoverageOk e = true ∧ (pinsOf e).Nodup ∧ ∀ x ∈ pinsOf e, x ∈ avail

instance (avail : List Pin) (e : IoSet) : Decidable (ioSetWf avail e) :=
  decidable_of_iff
    (roleCoverageOk e = true ∧ (pinsOf e).Nodup ∧ ∀ x ∈ pinsOf e, x ∈ avail)
    Iff.rfl

/-- States reachable from the empty claim table by resolve/release. -/
inductive Reachable (cat : Catalog) : ResolverState → Prop where
  | init : Reachable cat initState
  | stepResolve {st p asg b st'} : Reachable cat st →
      resolve cat p asg st = (Except.ok b, st') → Reachable cat st'
  | stepRelease {st} (b : PadBinding) : Reachable cat st →
      Reachable cat (release b st)

/-- No two live bindings share a pin. -/
def PinDisjoint (st : ResolverState) : Prop :=
  ∀ b1 ∈ st.bindings, ∀ b2 ∈ st.bindings, b1 ≠ b2 →
    ∀ x, x ∈ pinsOf b1.triples → x ∉ pinsOf b2.triples

/-! ### Resolver lemmas -/

theorem mem_claimedPins {st : ResolverState} {x : Pin} :
    x ∈ claimedPins st ↔ ∃ b ∈ st.bindings, x ∈ pinsOf b.triples := by
  simp [claimedPins]

theorem roleCoverageOk_of_perm {a b : List Triple} (h : a.Perm b)
    (hb : roleCoverageOk b = true) : roleCoverageOk a = true := by
  simp only [roleCoverageOk, List.all_eq_true, decide_eq_true_eq] at hb ⊢
  intro r hr
  rw [(h.filter (fun t => decide (t.role = r))).length_eq]
  exact hb r hr

theorem perm_of_sameTripleSet {a b : List Triple} (ha : a.Nodup) (hb : b.Nodup)
    (h : sameTripleSet a b = true) : a.Perm b := by
  rw [List.perm_ext_iff_of_nodup ha hb]
  simp only [sameTripleSet, Bool.and_eq_true, List.all_eq_true,
    decide_eq_true_eq] at h
  exact fun t => ⟨fun ht => h.1 t ht, fun ht => h.2 t ht⟩

theorem resolve_ok_inv {cat : Catalog} {p : Nat} {asg : List Triple}
    {st : ResolverState} {b : PadBinding} {st' : ResolverState}
    (h : resolve cat p asg st = (Except.ok b, st')) :
    b = ⟨p, asg⟩ ∧ st' = ⟨(⟨p, asg⟩ : PadBinding) :: st.bindings⟩ ∧
      ∀ x ∈ pinsOf asg, x ∉ claimedPins st := by
  rw [resolve] at h
  split_ifs at h with h1 h2 h3 h4
  · exact absurd h (by simp)
  · simp only [Prod.mk.injEq, Except.ok.injEq] at h
    refine ⟨h.1.symm, h.2.symm, ?_⟩
    intro x hx hcl
    exact h3 (List.any_eq_true.mpr ⟨x, hx, decide_eq_true hcl⟩)
  · exact absurd h (by simp)
  · exact absurd h (by simp)
  · exact absurd h (by simp)

/-! ### Claims C1, C7 and C8 -/

/-- C1: starting from the unclaimed state, for a well-formed catalog,
`resolve` succeeds with a Pad Binding iff the candidate assignment, viewed
as a set of role/pin/alternate-function triples, exactly equals one catalog
entry for that peripheral; everything else is rejected. -/
theorem resolve_exact_match (cat : Catalog) (p : Nat) (asg : List Triple)
    (hw : ∀ e ∈ cat.entries p, ioSetWf cat.available e) (hnd : asg.Nodup) :
    (∃ b st', resolve cat p asg initState = (Except.ok b, st')) ↔
      ∃ e ∈ cat.entries p, sameTripleSet asg e = true := by
  constructor
  · rintro ⟨b, st', hres⟩
    rw [resolve] at hres
    split_ifs at hres with h1 h2 h3 h4
    · exact absurd hres (by simp)
    · exact List.any_eq_true.mp h4
    · exact absurd hres (by simp)
    · exact absurd hres (by simp)
    · exact absurd hres (by simp)
  · rintro ⟨e, he, hset⟩
    obtain ⟨hcovE, hpinsE, havailE⟩ := hw e he
    have hend : e.Nodup := hpinsE.of_map
    have hperm : asg.Perm e := perm_of_sameTripleSet hnd hend hset
    have hcov : roleCoverageOk asg = true := roleCoverageOk_of_perm hperm hcovE
    have havail : (pinsOf asg).all (fun x => decide (x ∈ cat.available)) = true := by
      simp only [List.all_eq_true, decide_eq_true_eq]
      intro x hx
      exact havailE x ((hperm.map Triple.pin).mem_iff.mp hx)
    have hncl : (pinsOf asg).any (fun x => decide (x ∈ claimedPins initState)) = false := by
      simp [claimedPins, initState]
    have hmatch : (cat.entries p).any (fun e2 => sameTripleSet asg e2) = true :=
      List.any_eq_true.mpr ⟨e, he, hset⟩
    refine ⟨⟨p, asg⟩, ⟨(⟨p, asg⟩ : PadBinding) :: initState.bindings⟩, ?_⟩
    rw [resolve, if_pos hcov, if_pos havail, if_neg (by simp [hncl]), if_pos hmatch]

/-- Sample pin group from the spec's concrete scenario (section 8). -/
def sampleIoSet : IoSet :=
  [⟨Role.clock, ⟨0, 17⟩, 3⟩, ⟨Role.dataIn, ⟨0, 16⟩, 3⟩,
   ⟨Role.dataOut, ⟨1, 23⟩, 3⟩, ⟨Role.select, ⟨1, 22⟩, 3⟩]

/-- Sample catalog: peripheral 1 sanctions exactly `sampleIoSet`. -/
def sampleCatalog : Catalog where
  entries := fun p => if p = 1 then [sampleIoSet] else []
  available := [⟨0, 17⟩, ⟨0, 16⟩, ⟨1, 23⟩, ⟨1, 22⟩, ⟨0, 0⟩, ⟨0, 1⟩]

/-- Closed-form witness for C1 on the sample catalog. -/
theorem resolve_exact_match_witness :
    ((∀ e ∈ sampleCatalog.entries 1, ioSetWf sampleCatalog.available e) ∧
      sampleIoSet.Nodup) ∧
    ((∃ b st', resolve sampleCatalog 1 sampleIoSet initState = (Except.ok b, st')) ↔
      ∃ e ∈ sampleCatalog.entries 1, sameTripleSet sampleIoSet e = true) :=
  ⟨⟨by decide, by decide⟩,
    resolve_exact_match sampleCatalog 1 sampleIoSet (by decide) (by decide)⟩

/-- C7: in every state reachable by resolve/release, no two live Pad
Bindings share a Pin, and a request that names a claimed Pin (and passes
the earlier coverage and availability checks) is rejected with the
distinguishable outcome `pinClaimed`, leaving the state unchanged. -/
theorem pin_exclusivity (cat : Catalog) (st : ResolverState)
    (h : Reachable cat st) :
    PinDisjoint st ∧
    ∀ p asg, roleCoverageOk asg = true →
      (pinsOf asg).all (fun x => decide (x ∈ cat.available)) = true →
      (∃ x ∈ pinsOf asg, x ∈ claimedPins st) →
      resolve cat p asg st = (Except.error Rejection.pinClaimed, st) := by
  constructor
  · induction h with
    | init =>
      intro b1 hb1 _ _ _ _ _
      simp [initState] at hb1
    | stepResolve hr hok ih =>
      obtain ⟨-, hst, hfresh⟩ := resolve_ok_inv hok
      subst hst
      intro b1 hb1 b2 hb2 hne x hx1 hx2
      rw [List.mem_cons] at hb1 hb2
      rcases hb1 with hb1 | hb1 <;> rcases hb2 with hb2 | hb2
      · exact hne (hb1.trans hb2.symm)
      · subst hb1
        exact hfresh x hx1 (mem_claimedPins.mpr ⟨b2, hb2, hx2⟩)
      · subst hb2
        exact hfresh x hx2 (mem_claimedPins.mpr ⟨b1, hb1, hx1⟩)
      · exact ih b1 hb1 b2 hb2 hne x hx1 hx2
    | stepRelease b hr ih =>
      intro b1 hb1 b2 hb2 hne x hx1 hx2
      exact ih b1 (List.mem_of_mem_erase hb1) b2 (List.mem_of_mem_erase hb2)
        hne x hx1 hx2
  · intro p asg hcov havail hclaim
    obtain ⟨x, hx, hcl⟩ := hclaim
    rw [resolve, if_pos hcov, if_pos havail,
      if_pos (List.any_eq_true.mpr ⟨x, hx, decide_eq_true hcl⟩)]

/-- Closed-form witness for C7 at the initial state of the sample
catalog. -/
theorem pin_exclusivity_witness :
    PinDisjoint initState ∧
    ∀ p asg, roleCoverageOk asg = true →
      (pinsOf asg).all (fun x => decide (x ∈ sampleCatalog.available)) = true →
      (∃ x ∈ pinsOf asg, x ∈ claimedPins initState) →
      resolve sampleCatalog p asg initState =
        (Except.error Rejection.pinClaimed, initState) :=
  pin_exclusivity sampleCatalog initState Reachable.init

/-- C8: every failed resolve returns one of the four discriminated
rejections and leaves the claim table exactly as it was: no binding is
added and no pin's claim status changes. -/
theorem resolve_rejection_frame (cat : Catalog) (p : Nat) (asg : List Triple)
    (st : ResolverState) (e : Rejection) (st' : ResolverState)
    (h : resolve cat p asg st = (Except.error e, st')) :
    st' = st ∧
      (e = Rejection.invalidRoleCoverage ∨ e = Rejection.unsanctioned ∨
       e = Rejection.pinUnavailable ∨ e = Rejection.pinClaimed) := by
  refine ⟨?_, by cases e <;> simp⟩
  rw [resolve] at h
  split_ifs at h <;> simp only [Prod.mk.injEq] at h <;>
    first
      | exact h.2.symm
      | exact absurd h (by simp)

/-- Closed-form witness for C8: the empty assignment fails role coverage
and changes nothing. -/
theorem resolve_rejection_frame_witness :
    initState = initState ∧
      (Rejection.invalidRoleCoverage = Rejection.invalidRoleCoverage ∨
       Rejection.invalidRoleCoverage = Rejection.unsanctioned ∨
       Rejection.invalidRoleCoverage = Rejection.pinUnavailable ∨
       Rejection.invalidRoleCoverage = Rejection.pinClaimed) :=
  resolve_rejection_frame sampleCatalog 0 [] initState
    Rejection.invalidRoleCoverage initState rfl

end Atsamd
